import Mathlib

/-!
Verification of the generic in-memory CRUD store and HTTP dispatcher of
`go-crud-helper` (`crud_helper.go`).

The Go code keeps a `map[int]interface{}` together with a `nextID : int`
counter.  Records are opaque values with an integer `ID` field that the
store writes via reflection.  We embed this shallowly:

* `Record τ` is a value with an `ID : Int` field and an opaque payload of
  type `τ` (the rest of the caller-defined struct).
* the map is an association list with unique keys; Go's map iteration
  order is unspecified, so any representation of the finite map is
  faithful.  `mapInsert` models `m[k] = v`, `mapErase` models
  `delete(m, k)`, `mapLookup` models `v, ok := m[k]`.
* Go `int` is modelled as unbounded `Int` (the spec and the claims are
  about the mathematical counter; 64-bit wraparound is out of scope).
* the mutex serialises operations, so the sequential semantics below is
  the whole behaviour.
-/

/-- A stored record: an integer `ID` field (written by the store via
reflection in the Go source) plus the caller-defined rest of the value. -/
structure Record (τ : Type) where
  ID : Int
  payload : τ
  deriving DecidableEq, Repr

/-- `v, ok := m[k]` on the association-list representation of the map. -/
def mapLookup {τ : Type} (k : Int) : List (Int × Record τ) → Option (Record τ)
  | [] => none
  | p :: ps => if p.1 = k then some p.2 else mapLookup k ps

/-- `delete(m, k)`: drop every entry with key `k`. -/
def mapErase {τ : Type} (k : Int) : List (Int × Record τ) → List (Int × Record τ)
  | [] => []
  | p :: ps => if p.1 = k then mapErase k ps else p :: mapErase k ps

/-- `m[k] = v`: bind key `k` to `v`, replacing any previous binding. -/
def mapInsert {τ : Type} (k : Int) (v : Record τ) (m : List (Int × Record τ)) :
    List (Int × Record τ) :=
  (k, v) :: mapErase k m

/-- The `Store` struct of `crud_helper.go`: the map plus the `nextID`
counter.  The mutex has no observable effect in the sequential model. -/
structure Store (τ : Type) where
  data : List (Int × Record τ)
  nextID : Int
  deriving Repr

/-- `NewStore` (crud_helper.go lines 31-36): empty map, `nextID = 1`. -/
def NewStore (τ : Type) : Store τ :=
  { data := [], nextID := 1 }

/-- `Store.Create` (lines 39-51): assign `id := nextID`, increment
`nextID`, overwrite the item's `ID` field with `id`, insert, and return
the now-ID-bearing item. -/
def Store.Create {τ : Type} (s : Store τ) (item : Record τ) : Record τ × Store τ :=
  let id := s.nextID
  let item' := { item with ID := id }
  (item', { data := mapInsert id item' s.data, nextID := s.nextID + 1 })

/-- `Store.Get` (lines 54-67): return the stored record for `id`, or
report absence.  `some r` stands for `found = true` with result `r`. -/
def Store.Get {τ : Type} (s : Store τ) (id : Int) : Option (Record τ) :=
  mapLookup id s.data

/-- `Store.GetAll` (lines 70-79): every stored record, in map order. -/
def Store.GetAll {τ : Type} (s : Store τ) : List (Record τ) :=
  s.data.map Prod.snd

/-- `Store.Update` (lines 82-94): if `id` is present, replace the stored
value wholesale and return `true`; otherwise return `false`. -/
def Store.Update {τ : Type} (s : Store τ) (id : Int) (updatedItem : Record τ) :
    Bool × Store τ :=
  if (mapLookup id s.data).isSome then
    (true, { data := mapInsert id updatedItem s.data, nextID := s.nextID })
  else
    (false, s)

/-- `Store.Delete` (lines 97-108): if `id` is present, remove the entry
and return `true`; otherwise return `false`. -/
def Store.Delete {τ : Type} (s : Store τ) (id : Int) : Bool × Store τ :=
  if (mapLookup id s.data).isSome then
    (true, { data := mapErase id s.data, nextID := s.nextID })
  else
    (false, s)

/-! ### Map lemmas -/

theorem mapLookup_erase {τ : Type} (k k' : Int) (m : List (Int × Record τ)) :
    mapLookup k' (mapErase k m) = if k' = k then none else mapLookup k' m := by
  induction m with
  | nil => simp [mapErase, mapLookup]
  | cons p ps ih =>
    by_cases hpk : p.1 = k
    · by_cases hk : k' = k
      · subst hk
        simp [mapErase, mapLookup, hpk, ih]
      · have hp' : p.1 ≠ k' := fun h => hk (by rw [← h, hpk])
        simp [mapErase, mapLookup, hpk, hk, hp', Ne.symm hk, ih]
    · by_cases hk' : p.1 = k'
      · have hkk : ¬k' = k := fun h => hpk (hk'.trans h)
        simp [mapErase, mapLookup, hpk, hk', hkk]
      · simp [mapErase, mapLookup, hpk, hk', ih]

theorem mapLookup_insert {τ : Type} (k k' : Int) (v : Record τ)
    (m : List (Int × Record τ)) :
    mapLookup k' (mapInsert k v m) =
      if k' = k then some v else mapLookup k' m := by
  by_cases hk : k' = k <;>
    simp [mapInsert, mapLookup, mapLookup_erase, hk, Ne.symm]

theorem mapLookup_insert_self {τ : Type} (k : Int) (v : Record τ)
    (m : List (Int × Record τ)) :
    mapLookup k (mapInsert k v m) = some v := by
  simp [mapLookup_insert]

/-! ### Claim C2: Create then Get -/

/-- **C2.** After `Create(r)` returns a record with assigned ID `id`, a
subsequent `Get(id)` succeeds and returns a record equal to `r` in every
field except `ID`, which equals the assigned id (`nextID` at call time). -/
theorem create_then_get {τ : Type} (s : Store τ) (r : Record τ) :
    ((s.Create r).2).Get ((s.Create r).1).ID = some (s.Create r).1 ∧
      ((s.Create r).1).payload = r.payload ∧
      ((s.Create r).1).ID = s.nextID := by
  refine ⟨?_, rfl, rfl⟩
  simp [Store.Create, Store.Get, mapLookup_insert_self]

/-! ### Claim C3: Update replaces wholesale -/

/-- **C3.** For an `id` present in the store and any record `r2`,
`Update(id, r2)` returns `true` and a subsequent `Get(id)` returns
exactly `r2`, including whatever `ID` field `r2` carries. -/
theorem update_replaces_wholesale {τ : Type} (s : Store τ) (id : Int)
    (r2 : Record τ) (h : (s.Get id).isSome) :
    (s.Update id r2).1 = true ∧ ((s.Update id r2).2).Get id = some r2 := by
  unfold Store.Update
  rw [Store.Get] at h
  simp [h, Store.Get, mapLookup_insert_self]

/-- Concrete instance of `update_replaces_wholesale`: the store holds id 1
with payload `0`, and updating with a record whose `ID` field is 77 stores
that record verbatim. -/
theorem update_replaces_wholesale_witness :
    ((((NewStore Int).Create ⟨0, 0⟩).2).Get 1).isSome ∧
      ((((NewStore Int).Create ⟨0, 0⟩).2).Update 1 ⟨77, 5⟩).1 = true ∧
      (((((NewStore Int).Create ⟨0, 0⟩).2).Update 1 ⟨77, 5⟩).2).Get 1 = some ⟨77, 5⟩ :=
  ⟨by decide, update_replaces_wholesale _ 1 ⟨77, 5⟩ (by decide)⟩

/-! ### Claim C4: Delete semantics -/

/-- **C4.** `Delete(id)` returns `true` exactly when `id` was present;
after it, `Get(id)` is not-found and a second `Delete(id)` returns
`false`. -/
theorem delete_semantics {τ : Type} (s : Store τ) (id : Int) :
    (s.Delete id).1 = (s.Get id).isSome ∧
      ((s.Delete id).2).Get id = none ∧
      (((s.Delete id).2).Delete id).1 = false := by
  unfold Store.Delete Store.Get
  by_cases h : (mapLookup id s.data).isSome
  · simp [h, mapLookup_erase]
  · have h' : mapLookup id s.data = none := by
      cases hm : mapLookup id s.data with
      | none => rfl
      | some v => simp [hm] at h
    simp [h, h']

/-! ### Operation traces

A sequence of Store operations, as issued by any interleaving of
handlers (the mutex serialises them, so a list is the general case). -/

/-- One Store operation. -/
inductive Op (τ : Type) where
  | create (r : Record τ)
  | update (id : Int) (r : Record τ)
  | delete (id : Int)
  | get (id : Int)
  | getAll

/-- State after one operation (reads leave the store unchanged). -/
def stepOp {τ : Type} (s : Store τ) : Op τ → Store τ
  | .create r => (s.Create r).2
  | .update id r => (s.Update id r).2
  | .delete id => (s.Delete id).2
  | .get _ => s
  | .getAll => s

/-- State after a whole trace, starting from `s`. -/
def runFrom {τ : Type} (s : Store τ) : List (Op τ) → Store τ
  | [] => s
  | op :: ops => runFrom (stepOp s op) ops

/-- State after a trace starting from `NewStore`. -/
def run {τ : Type} (ops : List (Op τ)) : Store τ :=
  runFrom (NewStore τ) ops

/-- Number of Create calls in a trace (Create never fails). -/
def countCreates {τ : Type} : List (Op τ) → Nat
  | [] => 0
  | .create _ :: ops => countCreates ops + 1
  | _ :: ops => countCreates ops

/-- The IDs returned by the Create calls of a trace, in call order. -/
def createdIDsFrom {τ : Type} (s : Store τ) : List (Op τ) → List Int
  | [] => []
  | op :: ops =>
    match op with
    | .create r => s.nextID :: createdIDsFrom (stepOp s (.create r)) ops
    | _ => createdIDsFrom (stepOp s op) ops


/-- `n` consecutive integers starting at `a`: the shape issued IDs take. -/
def idRange (a : Int) : Nat → List Int
  | 0 => []
  | n + 1 => a :: idRange (a + 1) n

theorem mem_idRange (n : Nat) (a id : Int) :
    id ∈ idRange a n ↔ a ≤ id ∧ id < a + n := by
  induction n generalizing a with
  | zero => simp [idRange]
  | succ n ih =>
    simp [idRange, ih]
    omega

theorem idRange_pairwise (n : Nat) (a : Int) :
    (idRange a n).Pairwise (· < ·) := by
  induction n generalizing a with
  | zero => simp [idRange]
  | succ n ih =>
    refine List.Pairwise.cons ?_ (ih (a + 1))
    intro b hb
    rw [mem_idRange] at hb
    omega

/-- Only `Create` changes `nextID`: Update keeps it. -/
theorem nextID_update {τ : Type} (s : Store τ) (id : Int) (r : Record τ) :
    ((s.Update id r).2).nextID = s.nextID := by
  unfold Store.Update
  by_cases h : (mapLookup id s.data).isSome <;> simp [h]

/-- Only `Create` changes `nextID`: Delete keeps it. -/
theorem nextID_delete {τ : Type} (s : Store τ) (id : Int) :
    ((s.Delete id).2).nextID = s.nextID := by
  unfold Store.Delete
  by_cases h : (mapLookup id s.data).isSome <;> simp [h]

/-- `nextID` after a trace: initial value plus the number of Creates. -/
theorem nextID_runFrom {τ : Type} (ops : List (Op τ)) (s : Store τ) :
    (runFrom s ops).nextID = s.nextID + countCreates ops := by
  induction ops generalizing s with
  | nil => simp [runFrom, countCreates]
  | cons op ops ih =>
    cases op with
    | create r =>
      have : (stepOp s (.create r)).nextID = s.nextID + 1 := rfl
      simp [runFrom, ih, countCreates, this]
      ring
    | update id r => simp [runFrom, ih, countCreates, stepOp, nextID_update]
    | delete id => simp [runFrom, ih, countCreates, stepOp, nextID_delete]
    | get id => simp [runFrom, ih, countCreates, stepOp]
    | getAll => simp [runFrom, ih, countCreates, stepOp]

/-- Closed form for the issued IDs: consecutive integers starting at the
initial `nextID`. -/
theorem createdIDsFrom_eq {τ : Type} (ops : List (Op τ)) (s : Store τ) :
    createdIDsFrom s ops = idRange s.nextID (countCreates ops) := by
  induction ops generalizing s with
  | nil => simp [createdIDsFrom, countCreates, idRange]
  | cons op ops ih =>
    cases op with
    | create r =>
      have hstep : (stepOp s (.create r)).nextID = s.nextID + 1 := rfl
      simp only [createdIDsFrom, countCreates, idRange, ih, hstep]
    | update id r =>
      simp only [createdIDsFrom, countCreates, ih, stepOp, nextID_update]
    | delete id =>
      simp only [createdIDsFrom, countCreates, ih, stepOp, nextID_delete]
    | get id => simp only [createdIDsFrom, countCreates, ih, stepOp]
    | getAll => simp only [createdIDsFrom, countCreates, ih, stepOp]

/-- **C1.** Starting from `NewStore`, `nextID` starts at 1; the IDs
returned by Create are strictly increasing and never repeat, for every
trace, Deletes interleaved or not; `nextID` is incremented on every
Create and stays strictly greater than every ID ever issued. -/
theorem create_ids_strictly_increasing {τ : Type} (ops : List (Op τ)) :
    (NewStore τ).nextID = 1 ∧
      List.Chain' (· < ·) (createdIDsFrom (NewStore τ) ops) ∧
      (createdIDsFrom (NewStore τ) ops).Nodup ∧
      (run ops).nextID = 1 + countCreates ops ∧
      ∀ id ∈ createdIDsFrom (NewStore τ) ops, id < (run ops).nextID := by
  have hpw : (createdIDsFrom (NewStore τ) ops).Pairwise (· < ·) := by
    rw [createdIDsFrom_eq]
    exact idRange_pairwise _ _
  refine ⟨rfl, hpw.chain', hpw.imp ne_of_lt, ?_, ?_⟩
  · simp [run, nextID_runFrom, NewStore]
  · intro id hid
    rw [createdIDsFrom_eq, mem_idRange] at hid
    simp only [run, nextID_runFrom, NewStore] at *
    omega

/-! ### Claim C5 machinery: key invariants, counting, last writes -/

/-- Erasing only removes entries. -/
theorem mapErase_sublist {τ : Type} (k : Int) (m : List (Int × Record τ)) :
    (mapErase k m).Sublist m := by
  induction m with
  | nil => simp [mapErase]
  | cons p ps ih =>
    by_cases hp : p.1 = k
    · simp only [mapErase, hp, if_true]
      exact ih.cons p
    · simp only [mapErase, hp, if_false]
      exact ih.cons₂ p

/-- The erased key does not occur among the keys afterwards. -/
theorem not_mem_keys_mapErase {τ : Type} (k : Int) (m : List (Int × Record τ)) :
    k ∉ (mapErase k m).map Prod.fst := by
  induction m with
  | nil => simp [mapErase]
  | cons p ps ih =>
    by_cases hp : p.1 = k
    · simpa [mapErase, hp] using ih
    · simp [mapErase, hp, ih, Ne.symm hp]

/-- Erasing an absent key is the identity. -/
theorem mapErase_eq_of_not_mem {τ : Type} (k : Int) (m : List (Int × Record τ))
    (h : k ∉ m.map Prod.fst) : mapErase k m = m := by
  induction m with
  | nil => rfl
  | cons p ps ih =>
    simp only [List.map_cons, List.mem_cons] at h
    push_neg at h
    simp only [mapErase, Ne.symm h.1, if_false]
    rw [ih h.2]

/-- Store invariant: keys are distinct and all below `nextID`. -/
def StoreInv {τ : Type} (s : Store τ) : Prop :=
  (s.data.map Prod.fst).Nodup ∧ ∀ k ∈ s.data.map Prod.fst, k < s.nextID

/-- The fresh store satisfies the invariant. -/
theorem storeInv_newStore (τ : Type) : StoreInv (NewStore τ) := by
  constructor <;> simp [NewStore]

/-- Keys after insertion come from the inserted key or the old keys. -/
theorem mem_keys_mapInsert {τ : Type} (k x : Int) (v : Record τ)
    (m : List (Int × Record τ)) (h : x ∈ (mapInsert k v m).map Prod.fst) :
    x = k ∨ x ∈ m.map Prod.fst := by
  simp only [mapInsert, List.map_cons, List.mem_cons] at h
  rcases h with h | h
  · exact Or.inl h
  · exact Or.inr (((mapErase_sublist k m).map Prod.fst).subset h)

/-- Insertion preserves distinctness of keys. -/
theorem nodupKeys_mapInsert {τ : Type} (k : Int) (v : Record τ)
    (m : List (Int × Record τ)) (h : (m.map Prod.fst).Nodup) :
    ((mapInsert k v m).map Prod.fst).Nodup := by
  simp only [mapInsert, List.map_cons, List.nodup_cons]
  exact ⟨not_mem_keys_mapErase k m,
    List.Nodup.sublist ((mapErase_sublist k m).map Prod.fst) h⟩

/-- A successful lookup means the key occurs among the keys. -/
theorem mem_keys_of_mapLookup_isSome {τ : Type} (k : Int)
    (m : List (Int × Record τ)) (h : (mapLookup k m).isSome) :
    k ∈ m.map Prod.fst := by
  induction m with
  | nil => simp [mapLookup] at h
  | cons p ps ih =>
    by_cases hp : p.1 = k
    · simp [hp]
    · simp only [mapLookup, hp, if_false] at h
      simp [ih h]

/-- Every store operation preserves the invariant. -/
theorem storeInv_stepOp {τ : Type} (s : Store τ) (op : Op τ)
    (h : StoreInv s) : StoreInv (stepOp s op) := by
  obtain ⟨hnd, hlt⟩ := h
  cases op with
  | create r =>
    refine ⟨nodupKeys_mapInsert _ _ _ hnd, ?_⟩
    intro k hk
    rcases mem_keys_mapInsert _ _ _ _ hk with rfl | hk
    · simp [stepOp, Store.Create]
    · have := hlt k hk
      simp only [stepOp, Store.Create]
      omega
  | update id r =>
    simp only [stepOp, Store.Update]
    by_cases hid : (mapLookup id s.data).isSome
    · simp only [hid, if_true]
      refine ⟨nodupKeys_mapInsert _ _ _ hnd, ?_⟩
      intro k hk
      rcases mem_keys_mapInsert _ _ _ _ hk with rfl | hk
      · -- the updated key was already present, hence already bounded
        exact hlt k (mem_keys_of_mapLookup_isSome k s.data hid)
      · exact hlt k hk
    · simpa [hid] using ⟨hnd, hlt⟩
  | delete id =>
    simp only [stepOp, Store.Delete]
    by_cases hid : (mapLookup id s.data).isSome
    · simp only [hid, if_true]
      refine ⟨List.Nodup.sublist ((mapErase_sublist id s.data).map Prod.fst) hnd, ?_⟩
      intro k hk
      exact hlt k (((mapErase_sublist id s.data).map Prod.fst).subset hk)
    · simpa [hid] using ⟨hnd, hlt⟩
  | get id => exact ⟨hnd, hlt⟩
  | getAll => exact ⟨hnd, hlt⟩

/-- The invariant holds after any trace. -/
theorem storeInv_runFrom {τ : Type} (ops : List (Op τ)) (s : Store τ)
    (h : StoreInv s) : StoreInv (runFrom s ops) := by
  induction ops generalizing s with
  | nil => exact h
  | cons op ops ih => exact ih _ (storeInv_stepOp s op h)

/-- Erasing a present key from a map with distinct keys removes exactly
one entry. -/
theorem length_mapErase_of_isSome {τ : Type} (k : Int)
    (m : List (Int × Record τ)) (hnd : (m.map Prod.fst).Nodup)
    (h : (mapLookup k m).isSome) :
    (mapErase k m).length + 1 = m.length := by
  induction m with
  | nil => simp [mapLookup] at h
  | cons p ps ih =>
    simp only [List.map_cons, List.nodup_cons] at hnd
    by_cases hp : p.1 = k
    · have hk : k ∉ ps.map Prod.fst := hp ▸ hnd.1
      simp [mapErase, hp, mapErase_eq_of_not_mem k ps hk]
    · simp only [mapLookup, hp, if_false] at h
      simp only [mapErase, hp, if_false, List.length_cons]
      rw [← ih hnd.2 h]

/-- Inserting an absent key adds exactly one entry. -/
theorem length_mapInsert_of_not_mem {τ : Type} (k : Int) (v : Record τ)
    (m : List (Int × Record τ)) (h : k ∉ m.map Prod.fst) :
    (mapInsert k v m).length = m.length + 1 := by
  simp [mapInsert, mapErase_eq_of_not_mem k m h]

/-- Inserting a present key into a map with distinct keys keeps the
number of entries. -/
theorem length_mapInsert_of_isSome {τ : Type} (k : Int) (v : Record τ)
    (m : List (Int × Record τ)) (hnd : (m.map Prod.fst).Nodup)
    (h : (mapLookup k m).isSome) :
    (mapInsert k v m).length = m.length := by
  simp only [mapInsert, List.length_cons]
  exact length_mapErase_of_isSome k m hnd h

/-- Number of successful Delete calls in a trace (a Delete succeeds when
its id is present at the moment of the call). -/
def succDeletesFrom {τ : Type} : Store τ → List (Op τ) → Nat
  | _, [] => 0
  | s, .delete id :: ops =>
    (if (s.Delete id).1 then 1 else 0) +
      succDeletesFrom (stepOp s (.delete id)) ops
  | s, .create r :: ops => succDeletesFrom (stepOp s (.create r)) ops
  | s, .update id r :: ops => succDeletesFrom (stepOp s (.update id r)) ops
  | s, .get _ :: ops => succDeletesFrom s ops
  | s, .getAll :: ops => succDeletesFrom s ops

/-- The successful writes of a trace, in order: each Create writes the
ID-bearing record at the fresh id, each successful Update writes its
record at its id. -/
def writesFrom {τ : Type} : Store τ → List (Op τ) → List (Int × Record τ)
  | _, [] => []
  | s, .create r :: ops =>
    (s.nextID, (s.Create r).1) :: writesFrom (stepOp s (.create r)) ops
  | s, .update id r :: ops =>
    if (s.Update id r).1 then (id, r) :: writesFrom (stepOp s (.update id r)) ops
    else writesFrom (stepOp s (.update id r)) ops
  | s, .delete id :: ops => writesFrom (stepOp s (.delete id)) ops
  | s, .get _ :: ops => writesFrom s ops
  | s, .getAll :: ops => writesFrom s ops

/-- The last write a trace made to `id`, if any. -/
def lastWrite {τ : Type} (ws : List (Int × Record τ)) (id : Int) :
    Option (Record τ) :=
  mapLookup id ws.reverse

theorem mapLookup_append_of_isSome {τ : Type} (k : Int) (v : Record τ)
    (xs ys : List (Int × Record τ)) (h : mapLookup k xs = some v) :
    mapLookup k (xs ++ ys) = some v := by
  induction xs with
  | nil => simp [mapLookup] at h
  | cons p ps ih =>
    by_cases hp : p.1 = k
    · simp only [mapLookup, hp, if_true] at h
      simp [mapLookup, hp, h]
    · simp only [mapLookup, hp, if_false] at h
      simp [mapLookup, hp, ih h]

theorem mapLookup_append_of_none {τ : Type} (k : Int)
    (xs ys : List (Int × Record τ)) (h : mapLookup k xs = none) :
    mapLookup k (xs ++ ys) = mapLookup k ys := by
  induction xs with
  | nil => simp
  | cons p ps ih =>
    by_cases hp : p.1 = k
    · simp [mapLookup, hp] at h
    · simp only [mapLookup, hp, if_false] at h
      simp [mapLookup, hp, ih h]

/-- The last write of `w :: ws` is the last write of `ws` when there is
one, and otherwise `w` itself if it wrote `id`. -/
theorem lastWrite_cons {τ : Type} (w : Int × Record τ)
    (ws : List (Int × Record τ)) (id : Int) :
    lastWrite (w :: ws) id =
      match lastWrite ws id with
      | some v => some v
      | none => if w.1 = id then some w.2 else none := by
  unfold lastWrite
  rw [List.reverse_cons]
  cases h : mapLookup id ws.reverse with
  | some v => exact mapLookup_append_of_isSome id v _ _ h
  | none =>
    rw [mapLookup_append_of_none id _ _ h]
    simp [mapLookup]

/-- In a map with distinct keys, every entry is found by looking up its
key. -/
theorem mapLookup_eq_of_mem_nodup {τ : Type} (m : List (Int × Record τ))
    (p : Int × Record τ) (hnd : (m.map Prod.fst).Nodup) (hp : p ∈ m) :
    mapLookup p.1 m = some p.2 := by
  induction m with
  | nil => simp at hp
  | cons q qs ih =>
    simp only [List.map_cons, List.nodup_cons] at hnd
    rcases List.mem_cons.mp hp with rfl | hp
    · simp [mapLookup]
    · have hne : q.1 ≠ p.1 := fun h => hnd.1 (h ▸ List.mem_map_of_mem Prod.fst hp)
      simp only [mapLookup, hne, if_false]
      exact ih hnd.2 hp

/-- Bookkeeping: entries after a trace = entries before + Creates −
successful Deletes (stated without subtraction). -/
theorem length_runFrom {τ : Type} (ops : List (Op τ)) (s : Store τ)
    (h : StoreInv s) :
    (runFrom s ops).data.length + succDeletesFrom s ops =
      s.data.length + countCreates ops := by
  induction ops generalizing s with
  | nil => simp [runFrom, succDeletesFrom, countCreates]
  | cons op ops ih =>
    have hstep := storeInv_stepOp s op h
    have ihs := ih (stepOp s op) hstep
    cases op with
    | create r =>
      have hfresh : s.nextID ∉ s.data.map Prod.fst := fun hmem => by
        have := h.2 _ hmem
        omega
      have hlen : (stepOp s (.create r)).data.length = s.data.length + 1 := by
        simp only [stepOp, Store.Create]
        exact length_mapInsert_of_not_mem _ _ _ hfresh
      simp only [runFrom, succDeletesFrom, countCreates] at ihs ⊢
      omega
    | update id r =>
      have hlen : (stepOp s (.update id r)).data.length = s.data.length := by
        simp only [stepOp, Store.Update]
        by_cases hid : (mapLookup id s.data).isSome
        · simp only [hid, if_true]
          exact length_mapInsert_of_isSome _ _ _ h.1 hid
        · simp [hid]
      simp only [runFrom, succDeletesFrom, countCreates] at ihs ⊢
      omega
    | delete id =>
      by_cases hid : (mapLookup id s.data).isSome
      · have hlen : (stepOp s (.delete id)).data.length + 1 = s.data.length := by
          simp only [stepOp, Store.Delete, hid, if_true]
          exact length_mapErase_of_isSome _ _ h.1 hid
        have hsucc : (s.Delete id).1 = true := by simp [Store.Delete, hid]
        simp only [runFrom, succDeletesFrom, countCreates] at ihs ⊢
        simp only [hsucc, if_true]
        omega
      · have hlen : (stepOp s (.delete id)).data.length = s.data.length := by
          simp [stepOp, Store.Delete, hid]
        have hsucc : (s.Delete id).1 = false := by simp [Store.Delete, hid]
        simp only [runFrom, succDeletesFrom, countCreates] at ihs ⊢
        simp only [hsucc, Bool.false_eq_true, if_false]
        omega
    | get id =>
      simp only [runFrom, succDeletesFrom, countCreates, stepOp] at ihs ⊢
      omega
    | getAll =>
      simp only [runFrom, succDeletesFrom, countCreates, stepOp] at ihs ⊢
      omega

/-- Every entry surviving a trace is either the last value the trace
wrote at its key, or an untouched entry of the initial store. -/
theorem lastWrite_runFrom {τ : Type} (ops : List (Op τ)) (s : Store τ)
    (id : Int) (v : Record τ)
    (h : mapLookup id (runFrom s ops).data = some v) :
    lastWrite (writesFrom s ops) id = some v ∨
      (lastWrite (writesFrom s ops) id = none ∧ mapLookup id s.data = some v) := by
  induction ops generalizing s with
  | nil => exact Or.inr ⟨rfl, h⟩
  | cons op ops ih =>
    rw [runFrom] at h
    cases op with
    | create r =>
      rcases ih (stepOp s (.create r)) h with hw | ⟨hw, hs⟩
      · left
        rw [writesFrom, lastWrite_cons, hw]
      · rw [stepOp, Store.Create] at hs
        rw [mapLookup_insert] at hs
        by_cases hid : id = s.nextID
        · left
          rw [writesFrom, lastWrite_cons, hw]
          simp only [hid, if_true] at hs ⊢
          simpa using hs
        · right
          rw [writesFrom, lastWrite_cons, hw]
          simp only [hid, if_false] at hs
          simp [Ne.symm hid, hs]
    | update uid r =>
      by_cases huid : (mapLookup uid s.data).isSome
      · have hok : (s.Update uid r).1 = true := by simp [Store.Update, huid]
        rcases ih (stepOp s (.update uid r)) h with hw | ⟨hw, hs⟩
        · left
          rw [writesFrom]
          simp only [hok, if_true]
          rw [lastWrite_cons, hw]
        · rw [stepOp, Store.Update, huid] at hs
          simp only [if_true] at hs
          rw [mapLookup_insert] at hs
          by_cases hid : id = uid
          · left
            rw [writesFrom]
            simp only [hok, if_true]
            rw [lastWrite_cons, hw]
            simp only [hid, if_true] at hs ⊢
            simpa using hs
          · right
            rw [writesFrom]
            simp only [hok, if_true]
            rw [lastWrite_cons, hw]
            simp only [hid, if_false] at hs
            simp [Ne.symm hid, hs]
      · have hok : (s.Update uid r).1 = false := by simp [Store.Update, huid]
        have hsame : stepOp s (.update uid r) = s := by
          simp [stepOp, Store.Update, huid]
        rcases ih (stepOp s (.update uid r)) h with hw | ⟨hw, hs⟩
        · left
          rw [writesFrom]
          simp only [hok, Bool.false_eq_true, if_false]
          exact hw
        · right
          rw [hsame] at hs
          rw [writesFrom]
          simp only [hok, Bool.false_eq_true, if_false]
          exact ⟨hw, hs⟩
    | delete did =>
      rcases ih (stepOp s (.delete did)) h with hw | ⟨hw, hs⟩
      · left
        rwa [writesFrom]
      · right
        refine ⟨by rwa [writesFrom], ?_⟩
        by_cases hdid : (mapLookup did s.data).isSome
        · rw [stepOp, Store.Delete, hdid] at hs
          simp only [if_true] at hs
          rw [mapLookup_erase] at hs
          by_cases hid : id = did
          · simp [hid] at hs
          · simpa [hid] using hs
        · have hsame : stepOp s (.delete did) = s := by
            simp [stepOp, Store.Delete, hdid]
          rwa [hsame] at hs
    | get gid =>
      rcases ih s h with hw | ⟨hw, hs⟩
      · left
        rwa [writesFrom]
      · right
        exact ⟨by rwa [writesFrom], hs⟩
    | getAll =>
      rcases ih s h with hw | ⟨hw, hs⟩
      · left
        rwa [writesFrom]
      · right
        exact ⟨by rwa [writesFrom], hs⟩

/-- **C5.** For every trace with N Creates and M successful Deletes,
`GetAll` afterwards returns exactly N − M records, and every stored
entry equals the value last written for its ID (by Create or Update). -/
theorem getAll_count_and_last_writes {τ : Type} (ops : List (Op τ)) :
    ((run ops).GetAll).length + succDeletesFrom (NewStore τ) ops =
        countCreates ops ∧
      succDeletesFrom (NewStore τ) ops ≤ countCreates ops ∧
      ((run ops).GetAll).length =
        countCreates ops - succDeletesFrom (NewStore τ) ops ∧
      ∀ p ∈ (run ops).data, lastWrite (writesFrom (NewStore τ) ops) p.1 = some p.2 := by
  have hlen := length_runFrom ops (NewStore τ) (storeInv_newStore τ)
  rw [show (NewStore τ).data.length = 0 from rfl, Nat.zero_add] at hlen
  have hrun : (run ops).data.length + succDeletesFrom (NewStore τ) ops =
      countCreates ops := hlen
  have hglen : ((run ops).GetAll).length = (run ops).data.length := by
    simp [Store.GetAll]
  refine ⟨?_, ?_, ?_, ?_⟩
  · rw [hglen]
    exact hrun
  · omega
  · rw [hglen]
    omega
  · intro p hp
    have hinv := storeInv_runFrom ops (NewStore τ) (storeInv_newStore τ)
    have hmem : mapLookup p.1 (run ops).data = some p.2 :=
      mapLookup_eq_of_mem_nodup _ p hinv.1 hp
    rcases lastWrite_runFrom ops (NewStore τ) p.1 p.2 hmem with hw | ⟨_, habs⟩
    · exact hw
    · simp [NewStore, mapLookup] at habs

/-- Concrete instance of `getAll_count_and_last_writes`: two Creates and
one successful Delete leave one record, equal to the last write at id 2. -/
theorem getAll_count_and_last_writes_witness :
    ((run [Op.create ⟨0, 10⟩, Op.create ⟨0, 20⟩, Op.delete 1]).GetAll).length =
        countCreates [Op.create ⟨0, 10⟩, Op.create ⟨0, 20⟩, Op.delete 1] -
          succDeletesFrom (NewStore Int)
            [Op.create ⟨0, 10⟩, Op.create ⟨0, 20⟩, Op.delete 1] ∧
      lastWrite
          (writesFrom (NewStore Int)
            [Op.create ⟨0, 10⟩, Op.create ⟨0, 20⟩, Op.delete 1]) 2 =
        some ⟨2, 20⟩ :=
  ⟨(getAll_count_and_last_writes _).2.2.1,
    (getAll_count_and_last_writes
      [Op.create ⟨0, 10⟩, Op.create ⟨0, 20⟩, Op.delete 1]).2.2.2
      (2, ⟨2, 20⟩) (by decide)⟩

/-- Concrete instance of `create_ids_strictly_increasing`: a trace with a
Delete interleaved between two Creates still issues increasing, distinct
IDs. -/
theorem create_ids_strictly_increasing_witness :
    List.Chain' (· < ·)
        (createdIDsFrom (NewStore Int)
          [Op.create ⟨9, 0⟩, Op.delete 1, Op.create ⟨0, 1⟩]) ∧
      (createdIDsFrom (NewStore Int)
          [Op.create ⟨9, 0⟩, Op.delete 1, Op.create ⟨0, 1⟩]).Nodup ∧
      (run [Op.create ⟨9, 0⟩, Op.delete 1, Op.create ⟨0, 1⟩]).nextID =
        1 + countCreates [Op.create (⟨9, 0⟩ : Record Int), Op.delete 1, Op.create ⟨0, 1⟩] :=
  ⟨(create_ids_strictly_increasing _).2.1,
    (create_ids_strictly_increasing _).2.2.1,
    (create_ids_strictly_increasing
      [Op.create ⟨9, 0⟩, Op.delete 1, Op.create ⟨0, 1⟩]).2.2.2.1⟩

/-! ### The HTTP dispatcher (`handleRequest`, crud_helper.go lines 111-183)

The HTTP layer is embedded as data: a request is its method, its `id`
query parameter (absent or a string), and the result of JSON-decoding
its body into the model type (`none` when decoding fails — the decoder
is the spec's black-box serializer).  A response records the status
code, whether the handler set `Content-Type: application/json`, and the
value handed to the JSON encoder. -/

/-- HTTP method of a request; `other` covers every unsupported method. -/
inductive Method where
  | post
  | get
  | put
  | delete
  | other (name : String)
  deriving DecidableEq, Repr

/-- An inbound HTTP request, reduced to what `handleRequest` inspects. -/
structure Request (τ : Type) where
  method : Method
  idParam : Option String
  body : Option (Record τ)
  deriving DecidableEq, Repr

/-- What the handler writes back: a JSON record, a JSON array, an error
text (via `http.Error`), or nothing (204). -/
inductive RespBody (τ : Type) where
  | jsonRecord (r : Record τ)
  | jsonArray (rs : List (Record τ))
  | text (msg : String)
  | noBody
  deriving DecidableEq, Repr

/-- An HTTP response: status, whether the handler set
`Content-Type: application/json`, and the body. -/
structure Response (τ : Type) where
  status : Nat
  contentTypeJSON : Bool
  body : RespBody τ
  deriving DecidableEq, Repr

/-- `r.URL.Query().Get("id")`: the empty string when the parameter is
absent. -/
def queryGet (q : Option String) : String :=
  q.getD ""

/-- Digit run of `strconv.Atoi`: all characters must be digits and there
must be at least one (handled by the caller). -/
def parseDigitsAux : List Char → Nat → Option Nat
  | [], acc => some acc
  | c :: cs, acc =>
    if c.isDigit then parseDigitsAux cs (acc * 10 + (c.toNat - 48)) else none

/-- Digits of `strconv.Atoi`: empty input is an error. -/
def parseDigits : List Char → Option Nat
  | [] => none
  | cs => parseDigitsAux cs 0

/-- `strconv.Atoi`: optional sign, then one or more digits; anything
else (in particular the empty string) is an error.  64-bit range errors
are out of scope, matching the unbounded-`Int` store model. -/
def atoi (s : String) : Option Int :=
  match s.toList with
  | [] => none
  | '+' :: rest => (parseDigits rest).map (fun n => (n : Int))
  | '-' :: rest => (parseDigits rest).map (fun n => -(n : Int))
  | cs => (parseDigits cs).map (fun n => (n : Int))

/-- `handleRequest` (lines 111-183), branch for branch.  Note the POST
branch: the Go code calls `w.WriteHeader(201)` and encodes without ever
setting `Content-Type`, so `contentTypeJSON` is `false` there; the GET
and PUT success branches do set it (lines 129, 142, 161). -/
def handleRequest {τ : Type} (store : Store τ) (r : Request τ) :
    Response τ × Store τ :=
  match r.method with
  | .post =>
    match r.body with
    | none => (⟨400, false, .text "Invalid request payload"⟩, store)
    | some newItem =>
      (⟨201, false, .jsonRecord (store.Create newItem).1⟩, (store.Create newItem).2)
  | .get =>
    if queryGet r.idParam = "" then
      (⟨200, true, .jsonArray store.GetAll⟩, store)
    else
      match atoi (queryGet r.idParam) with
      | none => (⟨400, false, .text "Invalid ID"⟩, store)
      | some id =>
        match store.Get id with
        | some result => (⟨200, true, .jsonRecord result⟩, store)
        | none => (⟨404, false, .text "Item not found"⟩, store)
  | .put =>
    match atoi (queryGet r.idParam) with
    | none => (⟨400, false, .text "Invalid ID"⟩, store)
    | some id =>
      match r.body with
      | none => (⟨400, false, .text "Invalid request payload"⟩, store)
      | some updatedItem =>
        if (store.Update id updatedItem).1 then
          (⟨200, true, .jsonRecord updatedItem⟩, (store.Update id updatedItem).2)
        else
          (⟨404, false, .text "Item not found"⟩, (store.Update id updatedItem).2)
  | .delete =>
    match atoi (queryGet r.idParam) with
    | none => (⟨400, false, .text "Invalid ID"⟩, store)
    | some id =>
      if (store.Delete id).1 then
        (⟨204, false, .noBody⟩, (store.Delete id).2)
      else
        (⟨404, false, .text "Item not found"⟩, (store.Delete id).2)
  | .other _ => (⟨405, false, .text "Unsupported method"⟩, store)

/-- A failed Update leaves the store untouched. -/
theorem update_fail_state {τ : Type} (s : Store τ) (id : Int) (r : Record τ)
    (h : (s.Update id r).1 = false) : (s.Update id r).2 = s := by
  unfold Store.Update at h ⊢
  by_cases hid : (mapLookup id s.data).isSome
  · simp [hid] at h
  · simp [hid]

/-- A failed Delete leaves the store untouched. -/
theorem delete_fail_state {τ : Type} (s : Store τ) (id : Int)
    (h : (s.Delete id).1 = false) : (s.Delete id).2 = s := by
  unfold Store.Delete at h ⊢
  by_cases hid : (mapLookup id s.data).isSome
  · simp [hid] at h
  · simp [hid]

/-! ### Claim C6: GET without id returns all records -/

/-- **C6.** Every GET request without an `id` query parameter gets a 200
response whose body is the JSON array of all stored records; on an empty
store the body is the empty array. -/
theorem get_without_id_returns_all {τ : Type} (s : Store τ) (req : Request τ)
    (hm : req.method = .get) (hid : queryGet req.idParam = "") :
    (handleRequest s req).1.status = 200 ∧
      (handleRequest s req).1.body = .jsonArray s.GetAll ∧
      (s.data = [] → (handleRequest s req).1.body = .jsonArray []) := by
  rcases req with ⟨m, idp, b⟩
  simp only at hm hid
  subst hm
  refine ⟨by simp [handleRequest, hid], by simp [handleRequest, hid], ?_⟩
  intro hdata
  simp [handleRequest, hid, Store.GetAll, hdata]

/-- Concrete instance of `get_without_id_returns_all`: after the only
record is deleted, GET with no id yields 200 and the empty array. -/
theorem get_without_id_returns_all_witness :
    ((((NewStore Int).Create ⟨0, 3⟩).2).Delete 1).2.data = [] ∧
      (handleRequest ((((NewStore Int).Create ⟨0, 3⟩).2).Delete 1).2
          ⟨Method.get, none, none⟩).1.status = 200 ∧
      (handleRequest ((((NewStore Int).Create ⟨0, 3⟩).2).Delete 1).2
          ⟨Method.get, none, none⟩).1.body = RespBody.jsonArray [] :=
  ⟨by decide,
    (get_without_id_returns_all _ ⟨Method.get, none, none⟩ rfl rfl).1,
    (get_without_id_returns_all ((((NewStore Int).Create ⟨0, 3⟩).2).Delete 1).2
      ⟨Method.get, none, none⟩ rfl rfl).2.2 (by decide)⟩

/-! ### Claim C7: Content-Type on JSON responses

The Go POST branch (lines 121-122) calls `w.WriteHeader(201)` and then
encodes, without ever setting `Content-Type: application/json`; only
the GET and PUT success paths set it (lines 129, 142, 161).  The claim
that 201 responses carry the header is therefore false on the code. -/

/-- **C7 counterexample.** A successful POST yields 201 but the handler
never set `Content-Type: application/json` on it. -/
theorem post_content_type_not_set :
    (handleRequest (NewStore Int) ⟨Method.post, none, some ⟨0, 0⟩⟩).1.status = 201 ∧
      (handleRequest (NewStore Int)
        ⟨Method.post, none, some ⟨0, 0⟩⟩).1.contentTypeJSON = false := by
  decide

/-- **C7 (amended).** Every 200 response (GET with or without id, PUT)
carries `Content-Type: application/json`; the POST 201 path does not set
the header. -/
theorem content_type_set_on_200 {τ : Type} (s : Store τ) (req : Request τ)
    (h : (handleRequest s req).1.status = 200) :
    (handleRequest s req).1.contentTypeJSON = true := by
  rcases req with ⟨m, idp, b⟩
  cases m with
  | post => cases b <;> simp_all [handleRequest]
  | get =>
    by_cases hq : queryGet idp = ""
    · simp [handleRequest, hq]
    · cases hat : atoi (queryGet idp) with
      | none => simp [handleRequest, hq, hat] at h
      | some id =>
        cases hget : Store.Get s id with
        | none => simp [handleRequest, hq, hat, hget] at h
        | some r => simp [handleRequest, hq, hat, hget]
  | put =>
    cases hat : atoi (queryGet idp) with
    | none => simp [handleRequest, hat] at h
    | some id =>
      cases b with
      | none => simp [handleRequest, hat] at h
      | some u =>
        by_cases hok : (s.Update id u).1 = true
        · simp [handleRequest, hat, hok]
        · simp [handleRequest, hat, hok] at h
  | delete =>
    cases hat : atoi (queryGet idp) with
    | none => simp [handleRequest, hat] at h
    | some id =>
      by_cases hok : (s.Delete id).1 = true
      · simp [handleRequest, hat, hok] at h
      · simp [handleRequest, hat, hok] at h
  | other name => simp [handleRequest] at h

/-- Concrete instance of `content_type_set_on_200`: GET of an existing
id answers 200 with the JSON Content-Type set. -/
theorem content_type_set_on_200_witness :
    (handleRequest (((NewStore Int).Create ⟨0, 3⟩).2)
        ⟨Method.get, some "1", none⟩).1.status = 200 ∧
      (handleRequest (((NewStore Int).Create ⟨0, 3⟩).2)
        ⟨Method.get, some "1", none⟩).1.contentTypeJSON = true :=
  ⟨by decide,
    content_type_set_on_200 (((NewStore Int).Create ⟨0, 3⟩).2)
      ⟨Method.get, some "1", none⟩ (by decide)⟩

/-! ### Claim C8: error paths do not mutate the store -/

/-- **C8.** Whenever the response is an error (400, 404 or 405), the
store after handling the request is exactly the store before it. -/
theorem error_response_leaves_store {τ : Type} (s : Store τ) (req : Request τ)
    (h : (handleRequest s req).1.status = 400 ∨
      (handleRequest s req).1.status = 404 ∨
      (handleRequest s req).1.status = 405) :
    (handleRequest s req).2 = s := by
  rcases req with ⟨m, idp, b⟩
  cases m with
  | post => cases b <;> simp_all [handleRequest]
  | get =>
    by_cases hq : queryGet idp = ""
    · simp [handleRequest, hq]
    · cases hat : atoi (queryGet idp) with
      | none => simp [handleRequest, hq, hat]
      | some id =>
        cases hget : Store.Get s id with
        | none => simp [handleRequest, hq, hat, hget]
        | some r => simp [handleRequest, hq, hat, hget]
  | put =>
    cases hat : atoi (queryGet idp) with
    | none => simp [handleRequest, hat]
    | some id =>
      cases b with
      | none => simp [handleRequest, hat]
      | some u =>
        by_cases hok : (s.Update id u).1 = true
        · simp [handleRequest, hat, hok] at h
        · simp only [Bool.not_eq_true] at hok
          simp [handleRequest, hat, hok, update_fail_state s id u hok]
  | delete =>
    cases hat : atoi (queryGet idp) with
    | none => simp [handleRequest, hat]
    | some id =>
      by_cases hok : (s.Delete id).1 = true
      · simp [handleRequest, hat, hok] at h
      · simp only [Bool.not_eq_true] at hok
        simp [handleRequest, hat, hok, delete_fail_state s id hok]
  | other name => simp [handleRequest]

/-- Concrete instance of `error_response_leaves_store`: a PATCH-like
unsupported method gets 405 and the store is untouched. -/
theorem error_response_leaves_store_witness :
    (handleRequest (((NewStore Int).Create ⟨0, 3⟩).2)
        ⟨Method.other "PATCH", none, none⟩).1.status = 405 ∧
      (handleRequest (((NewStore Int).Create ⟨0, 3⟩).2)
          ⟨Method.other "PATCH", none, none⟩).2 =
        ((NewStore Int).Create ⟨0, 3⟩).2 :=
  ⟨by decide,
    error_response_leaves_store (((NewStore Int).Create ⟨0, 3⟩).2)
      ⟨Method.other "PATCH", none, none⟩ (Or.inr (Or.inr (by decide)))⟩

/-! ### Claim C9: POST ignores a client-supplied id -/

/-- **C9.** For every POST whose body decodes to `r`, the client's `ID`
field is ignored: the 201 response carries `r` with its `ID` overwritten
by the store-assigned `nextID`, and that record is what got stored. -/
theorem post_ignores_client_id {τ : Type} (s : Store τ) (req : Request τ)
    (r : Record τ) (hm : req.method = .post) (hb : req.body = some r) :
    (handleRequest s req).1.status = 201 ∧
      (handleRequest s req).1.body = .jsonRecord { r with ID := s.nextID } ∧
      ((handleRequest s req).2).Get s.nextID = some { r with ID := s.nextID } := by
  rcases req with ⟨m, idp, b⟩
  simp only at hm hb
  subst hm
  subst hb
  refine ⟨rfl, rfl, ?_⟩
  simp [handleRequest, Store.Create, Store.Get, mapLookup_insert_self]

/-- Concrete instance of `post_ignores_client_id`: a body carrying
`ID = 999` is stored and echoed with the store-assigned id 1. -/
theorem post_ignores_client_id_witness :
    (handleRequest (NewStore Int) ⟨Method.post, none, some ⟨999, 7⟩⟩).1.status = 201 ∧
      (handleRequest (NewStore Int) ⟨Method.post, none, some ⟨999, 7⟩⟩).1.body =
        RespBody.jsonRecord ⟨1, 7⟩ :=
  ⟨(post_ignores_client_id (NewStore Int) _ ⟨999, 7⟩ rfl rfl).1, by decide⟩

/-! ### Claim C10: PUT/DELETE with the id parameter absent -/

/-- **C10.** A PUT or DELETE whose `id` query parameter is absent gets a
400 and leaves the store untouched, because `strconv.Atoi` fails on the
empty string; only GET treats an absent `id` as a get-all. -/
theorem put_delete_absent_id_400 {τ : Type} (s : Store τ) (req : Request τ)
    (hm : req.method = .put ∨ req.method = .delete) (hid : req.idParam = none) :
    atoi (queryGet req.idParam) = none ∧
      (handleRequest s req).1.status = 400 ∧
      (handleRequest s req).2 = s := by
  rcases req with ⟨m, idp, b⟩
  simp only at hm hid
  subst hid
  have hat : atoi (queryGet (none : Option String)) = none := rfl
  rcases hm with rfl | rfl <;>
    exact ⟨hat, by simp [handleRequest, hat], by simp [handleRequest, hat]⟩

/-- Concrete instance of `put_delete_absent_id_400`: DELETE without an
id parameter answers 400 and the stored record survives. -/
theorem put_delete_absent_id_400_witness :
    atoi (queryGet (none : Option String)) = none ∧
      (handleRequest (((NewStore Int).Create ⟨0, 3⟩).2)
          ⟨Method.delete, none, none⟩).1.status = 400 ∧
      (handleRequest (((NewStore Int).Create ⟨0, 3⟩).2)
          ⟨Method.delete, none, none⟩).2 =
        ((NewStore Int).Create ⟨0, 3⟩).2 :=
  put_delete_absent_id_400 (((NewStore Int).Create ⟨0, 3⟩).2)
    ⟨Method.delete, none, none⟩ (Or.inr rfl) rfl
